import Mathlib

/-!
Verification of the protoplasm numeric/geometric kernel.

This file shallowly embeds the datatypes of `src/datatype/` in Lean 4 and
proves (or refutes) the specification claims about them.

Modelling conventions, used throughout:

* `f32` values are modelled as exact rationals (`ℚ`), except for `Angle`
  (whose reduction involves π) which is modelled over `ℝ`.  Floating-point
  rounding is outside the model; the claims themselves speak
  "within floating tolerance".
* Rust `f32::fract` truncates toward zero; `fractQ` below reproduces that.
* Rust `f32::signum` returns `1.0` for `+0.0`; `signumMin0` reproduces
  `value.signum().min(0.0)` accordingly (`-0.0` does not exist in `ℚ`).
* Euclidean distances are compared through their squares (`dist2`):
  `dist p q ≤ radius ↔ dist2 p q ≤ radius²` for nonnegative `radius`,
  since squaring is monotone on nonnegatives.  Where the source compares
  a distance against `radius`, the embedding compares `dist2` against
  `r2 = radius²`.
* Randomness is passed as explicit oracle data (the values an `Rng` would
  have produced); universally quantified theorems therefore hold for every
  randomness source, and counterexamples exhibit one realizable stream.
-/

/-! ## Rational helpers for f32 primitives -/

/-- Rust `f32::trunc`: round toward zero. -/
def truncQ (q : ℚ) : ℤ := if 0 ≤ q then ⌊q⌋ else ⌈q⌉

/-- Rust `f32::fract`: `x - x.trunc()`. -/
def fractQ (q : ℚ) : ℚ := q - truncQ q

/-- Rust `value.signum().min(0.0)`: `-1` for negative values, `0` otherwise
(`signum` of `0.0` is `1.0` in Rust, so nonnegative values give `min(1,0) = 0`). -/
def signumMin0 (q : ℚ) : ℚ := if q < 0 then -1 else 0

/-- `src/datatype/constraint_resolvers.rs`: `non_normal_to_default`.
Non-normal floats (zero, subnormals, infinities, NaN) are replaced by
`f32::default() = 0.0`.  In the exact-rational model the non-normal inputs
are `0` and the subnormal band `|q| < 2⁻¹²⁶`. -/
def nonNormalToDefault (q : ℚ) : ℚ := if |q| < (1/2) ^ 126 then 0 else q

/-- Squared Euclidean distance between two points (see module conventions). -/
def dist2 (p q : ℚ × ℚ) : ℚ := (p.1 - q.1) ^ 2 + (p.2 - q.2) ^ 2

/-! ## `src/datatype/continuous.rs`: UNFloat / SNFloat constructors -/

/-- `UNFloat::new_sawtooth`: `value.fract() - value.signum().min(0.0)`. -/
def UNFloat_new_sawtooth (v : ℚ) : ℚ := fractQ v - signumMin0 v

/-- `UNFloat::new_triangle`:
`let s = (value - 1)/2; ((s.fract() - s.signum().min(0.0) - 0.5).abs()) * 2`. -/
def UNFloat_new_triangle (v : ℚ) : ℚ :=
  |fractQ ((v - 1) / 2) - signumMin0 ((v - 1) / 2) - 1/2| * 2

/-- `SNFloat::new_sawtooth`:
`let s = (value + 1)/2; (s.fract() - s.signum().min(0.0)) * 2 - 1`. -/
def SNFloat_new_sawtooth (v : ℚ) : ℚ :=
  (fractQ ((v + 1) / 2) - signumMin0 ((v + 1) / 2)) * 2 - 1

/-- `SNFloat::new_triangle`:
`let s = (value - 1)/4; ((s.fract() - s.signum().min(0.0) - 0.5).abs()) * 4 - 1`. -/
def SNFloat_new_triangle (v : ℚ) : ℚ :=
  |fractQ ((v - 1) / 4) - signumMin0 ((v - 1) / 4) - 1/2| * 4 - 1

/-- `SNFloat::new_clamped`: `value.max(-1.0).min(1.0)`. -/
def SNFloat_new_clamped (v : ℚ) : ℚ := min (max v (-1)) 1

/-- `SFloatNormaliser::Clamp` arm of `SFloatNormaliser::normalise`:
`SNFloat::new_clamped(non_normal_to_default(value))`. -/
def clampNormaliser (v : ℚ) : ℚ := SNFloat_new_clamped (nonNormalToDefault v)

/-! ## `src/datatype/discrete.rs`: Nibble / Byte / UInt / SInt arithmetic

`Nibble` values are `u8` below 16, `Byte` wraps `u8`, `UInt` wraps `u32`,
`SInt` wraps `i32`.  The unsigned carriers are modelled as `ℕ` (with the
range invariant as a hypothesis), `SInt` as `ℤ` in `[-2³¹, 2³¹)`.
`Wrapping<T>` division/remainder in Rust are `wrapping_div`/`wrapping_rem`,
which differ from plain truncated division only at `i32::MIN / -1`
(where the quotient wraps) — `wrap32` makes that explicit. -/

/-- Two's-complement wrap of an integer into `[-2³¹, 2³¹)`. -/
def wrap32 (v : ℤ) : ℤ := (v + 2 ^ 31) % 2 ^ 32 - 2 ^ 31

/-- `Nibble::divide`: zero divisor is returned unchanged, else `u8` division. -/
def Nibble_divide (x d : ℕ) : ℕ := if d = 0 then d else x / d

/-- `Nibble::modulus`: zero divisor returned unchanged, else
`Self::new_circular(self.value % other.value)`, i.e. a further `% 16`. -/
def Nibble_modulus (x d : ℕ) : ℕ := if d = 0 then d else (x % d) % 16

/-- `Byte::divide` (`Wrapping<u8>` division; division cannot overflow `u8`). -/
def Byte_divide (x d : ℕ) : ℕ := if d = 0 then d else x / d

/-- `Byte::modulus` (`Wrapping<u8>` remainder). -/
def Byte_modulus (x d : ℕ) : ℕ := if d = 0 then d else x % d

/-- `UInt::divide` (`Wrapping<u32>` division). -/
def UInt_divide (x d : ℕ) : ℕ := if d = 0 then d else x / d

/-- `UInt::modulus` (`Wrapping<u32>` remainder). -/
def UInt_modulus (x d : ℕ) : ℕ := if d = 0 then d else x % d

/-- `SInt::divide`: zero divisor returned unchanged, else `wrapping_div`
(truncated quotient, wrapped into 32 bits — wrapping matters only for
`i32::MIN / -1`). -/
def SInt_divide (x d : ℤ) : ℤ := if d = 0 then d else wrap32 (Int.tdiv x d)

/-- `SInt::modulus`: zero divisor returned unchanged, else `wrapping_rem`
(truncated remainder; `i32::MIN % -1` is `0`, which the truncated remainder
already gives, so no wrap is needed). -/
def SInt_modulus (x d : ℤ) : ℤ := if d = 0 then d else Int.tmod x d

/-! ## `src/datatype/color_blend_functions.rs` -/

/-- `FloatColor` (4 × `UNFloat`), channels as exact rationals. -/
structure FloatColor where
  r : ℚ
  g : ℚ
  b : ℚ
  a : ℚ
deriving DecidableEq

/-- The three blend function variants. -/
inductive ColorBlendFunctions where
  | Dissolve
  | Overlay
  | ScreenDodge
deriving DecidableEq

/-- `ColorBlendFunctions::blend`.  The `Dissolve` arm consumes one random
boolean from `thread_rng`; that boolean is the explicit `dissolveChoice`
argument here.  The `Overlay` arm is transcribed exactly as written in the
source, including `(2.0 * a * b).max(1.0)` on the `< 0.5` branch. -/
def ColorBlendFunctions.blend (self : ColorBlendFunctions) (dissolveChoice : Bool)
    (a b : FloatColor) : FloatColor :=
  match self with
  | .Dissolve => if dissolveChoice then a else b
  | .Overlay =>
      { r := if a.r < 1/2 then max (2 * a.r * b.r) 1 else 1 - 2 * ((1 - a.r) * (1 - b.r))
        g := if a.g < 1/2 then max (2 * a.g * b.g) 1 else 1 - 2 * ((1 - a.g) * (1 - b.g))
        b := if a.b < 1/2 then max (2 * a.b * b.b) 1 else 1 - 2 * ((1 - a.b) * (1 - b.b))
        a := (a.a + b.a) * (1/2) }
  | .ScreenDodge =>
      { r := 1 - (1 - a.r) * (1 - b.r)
        g := 1 - (1 - a.g) * (1 - b.g)
        b := 1 - (1 - a.b) * (1 - b.b)
        a := (a.a + b.a) * (1/2) }

/-! ## `src/datatype/points.rs`: the `SNPoint::new` assertion -/

/-- The exact condition asserted by `SNPoint::new`, transcribed verbatim from
the source: `value.x >= -1.0 && value.y <= 1.0 && value.x >= -1.0 && value.y <= 1.0`
(note the duplicated conjuncts). The constructor panics iff this is false. -/
def SNPoint_new_assert (x y : ℚ) : Prop :=
  -1 ≤ x ∧ y ≤ 1 ∧ -1 ≤ x ∧ y ≤ 1

instance (x y : ℚ) : Decidable (SNPoint_new_assert x y) := by
  unfold SNPoint_new_assert; infer_instance

/-- The unit-square invariant the spec claims `SNPoint::new` enforces
(modelled from the spec's words, for comparison with `SNPoint_new_assert`). -/
def inUnitSquare (x y : ℚ) : Prop :=
  -1 ≤ x ∧ x ≤ 1 ∧ -1 ≤ y ∧ y ≤ 1

/-! ## `src/datatype/continuous.rs`: `Angle::new`

The constant `std::f32::consts::PI` is a rational number (the `f32` nearest
to π); `PI32` below is its exact value, so the whole reduction is exact
rational arithmetic. -/

/-- Exact rational value of `std::f32::consts::PI` (bits `0x40490FDB`). -/
def PI32 : ℚ := 13176795 / 4194304

/-- `Angle::new`: three-way comparison of `value` with `0.0`, then
`(value / 2π).fract() * 2π` (plus a full turn for negative inputs), minus π.
The subsequent assert checks `-π ≤ normalised ≤ π`. -/
def Angle_new (v : ℚ) : ℚ :=
  (if 0 < v then fractQ (v / (2 * PI32)) * (2 * PI32)
   else if v < 0 then fractQ (v / (2 * PI32)) * (2 * PI32) + 2 * PI32
   else v) - PI32

/-! ## `src/datatype/point_sets.rs`: closest / furthest point queries

`FloatOrd(distance(p, other))` is a total order key on distances; minimizing
or maximizing the Euclidean distance is equivalent to minimizing/maximizing
its square, so `dist2` is used as the key. -/

/-- Accumulator loop of Rust `Iterator::min_by_key` (first minimum wins). -/
def minByKeyAux {α : Type} (key : α → ℚ) (m : α) : List α → α
  | [] => m
  | x :: xs => minByKeyAux key (if key x < key m then x else m) xs

/-- Rust `Iterator::min_by_key`: `none` on an empty iterator, otherwise the
first element with minimal key. -/
def rustMinByKey {α : Type} (key : α → ℚ) : List α → Option α
  | [] => none
  | x :: xs => some (minByKeyAux key x xs)

/-- Accumulator loop of Rust `Iterator::max_by_key` (last maximum wins). -/
def maxByKeyAux {α : Type} (key : α → ℚ) (m : α) : List α → α
  | [] => m
  | x :: xs => maxByKeyAux key (if key m ≤ key x then x else m) xs

/-- Rust `Iterator::max_by_key`: `none` on an empty iterator, otherwise the
last element with maximal key. -/
def rustMaxByKey {α : Type} (key : α → ℚ) : List α → Option α
  | [] => none
  | x :: xs => some (maxByKeyAux key x xs)

/-- `PointSet::get_closest_point`: filter out points equal to `other`,
take the minimum by distance, and fall back to `other` when nothing is left. -/
def PointSet_get_closest_point (points : List (ℚ × ℚ)) (other : ℚ × ℚ) : ℚ × ℚ :=
  (rustMinByKey (fun p => dist2 p other)
    (points.filter (fun p => decide (p ≠ other)))).getD other

/-- `PointSet::get_furthest_point`: as above with the maximum. -/
def PointSet_get_furthest_point (points : List (ℚ × ℚ)) (other : ℚ × ℚ) : ℚ × ℚ :=
  (rustMaxByKey (fun p => dist2 p other)
    (points.filter (fun p => decide (p ≠ other)))).getD other

/-! ## `src/datatype/automata_rules.rs`

Mutation of the rule types draws randomness partly from the passed-in rng
and partly from `thread_rng`; every drawn value is an explicit argument
here (`coin` for `thread_rng().gen::<bool>()`, raw indices for
`thread_rng().gen::<usize>()`, and fresh contents for the `generate_rng`
calls). -/

/-- `BitColor` (colors.rs): 3-bit RGB, 8 enumerated values. -/
inductive BitColor where
  | Black
  | Red
  | Green
  | Blue
  | Cyan
  | Magenta
  | Yellow
  | White
deriving DecidableEq

/-- `index % 8` as a `Fin 8` (the index reduction used by
`ElementaryAutomataRule::mutate_rng` and `LifeLikeAutomataRule::mutate_rng`). -/
def fin8 (idx : ℕ) : Fin 8 := ⟨idx % 8, Nat.mod_lt _ (by norm_num)⟩

/-- `ElementaryAutomataRule`: an 8-entry boolean truth table. -/
structure ElementaryAutomataRule where
  pattern : Fin 8 → Bool

/-- `ElementaryAutomataRule::generate_rng`: eight freshly generated booleans. -/
def ElementaryAutomataRule_generate (fresh : Fin 8 → Bool) : ElementaryAutomataRule :=
  ⟨fresh⟩

/-- `ElementaryAutomataRule::mutate_rng`: on `coin` (a `thread_rng` boolean),
fully resample; otherwise flip the entry at `thread_rng().gen::<usize>() % 8`. -/
def ElementaryAutomataRule_mutate (r : ElementaryAutomataRule) (coin : Bool)
    (fresh : Fin 8 → Bool) (idx : ℕ) : ElementaryAutomataRule :=
  if coin then ElementaryAutomataRule_generate fresh
  else ⟨fun i => if i = fin8 idx then !(r.pattern i) else r.pattern i⟩

/-- `PixelNeighbourhood`: closed set of offset patterns. -/
inductive PixelNeighbourhood where
  | Vertical
  | Horizontal
  | DiagLeft
  | DiagRight
  | Melt
  | BigMelt
  | VonNeumann
  | AntiVonNeumann
  | Cross
  | Moore
  | Spiral
  | Diamond
  | Circle
  | Flower
  | Square
deriving DecidableEq

/-- `PixelNeighbourhood::offsets`, transcribed from the source. -/
def PixelNeighbourhood.offsets : PixelNeighbourhood → List (ℤ × ℤ)
  | .Vertical => [(0, -1), (0, 1)]
  | .Horizontal => [(-1, 0), (1, 0)]
  | .DiagLeft => [(-1, -1), (1, 1)]
  | .DiagRight => [(1, -1), (-1, 1)]
  | .Melt => [(-1, -1), (0, -1), (1, -1)]
  | .BigMelt => [(-1, -1), (0, -1), (1, -1), (-1, -2), (0, -2), (1, -2)]
  | .VonNeumann => [(-1, 0), (1, 0), (0, -1), (0, 1)]
  | .AntiVonNeumann => [(-1, -1), (1, -1), (1, -1), (1, 1)]
  | .Cross => [(-1, 0), (-2, 0), (1, 0), (2, 0), (0, -1), (0, -2), (0, 1), (0, 2)]
  | .Moore => [(-1, -1), (-1, 0), (-1, 1), (0, -1), (0, 1), (1, -1), (1, 0), (1, 1)]
  | .Spiral => [(-1, 0), (-2, 1), (1, 0), (2, 1), (0, -1), (1, -2), (0, 1), (1, 2)]
  | .Diamond => [(-1, -1), (-2, 0), (-1, 1), (2, 0), (1, -1), (0, -2), (1, 1), (0, 2)]
  | .Circle => [(-2, -1), (-2, 0), (-2, 1), (2, -1), (2, 0), (2, 1),
      (-1, -2), (0, -2), (1, -2), (-1, 2), (0, 2), (1, 2)]
  | .Flower => [(-2, -1), (-1, 0), (-2, 1), (2, -1), (1, 0), (2, 1),
      (-1, -2), (0, -1), (1, -2), (-1, 2), (0, 1), (1, 2)]
  | .Square => [(-2, -2), (-2, -1), (-2, 0), (-2, 1), (2, -2), (2, -1), (2, 0), (2, 1),
      (-2, 2), (-1, -2), (0, -2), (1, -2), (2, 2), (-1, 2), (0, 2), (1, 2)]

/-- `NeighbourCountAutomataRule`: a `(n+1)³` table of colors where
`n = neighbourhood.offsets().len()`, modelled as a function on index
triples (meaningful on indices below `n+1`). -/
structure NeighbourCountAutomataRule where
  neighbourhood : PixelNeighbourhood
  truth_table : ℕ × ℕ × ℕ → BitColor

/-- `NeighbourCountAutomataRule::generate_rng`:
`Array3::from_shape_fn((n,n,n), ..)` with freshly generated colors. -/
def NeighbourCountAutomataRule_generate (nb : PixelNeighbourhood)
    (fresh : ℕ × ℕ × ℕ → BitColor) : NeighbourCountAutomataRule :=
  ⟨nb, fresh⟩

/-- `NeighbourCountAutomataRule::mutate_rng`: NO coin flip (the full-resample
line is commented out in the source); always resample the single entry at
`(ir % n, ig % n, ib % n)` where the three raw indices come from
`thread_rng`. -/
def NeighbourCountAutomataRule_mutate (r : NeighbourCountAutomataRule)
    (ir ig ib : ℕ) (newColor : BitColor) : NeighbourCountAutomataRule :=
  { r with truth_table := fun t =>
      if t = (ir % (r.neighbourhood.offsets.length + 1),
              ig % (r.neighbourhood.offsets.length + 1),
              ib % (r.neighbourhood.offsets.length + 1))
      then newColor else r.truth_table t }

/-- `LifeLikeTable`: one birth/survival flag pair. -/
structure LifeLikeTable where
  birth : Bool
  survival : Bool
deriving DecidableEq

/-- `IndivAutomataRule`: a neighbourhood plus `offsets().len() + 1` tables. -/
structure IndivAutomataRule where
  neighbourhood : PixelNeighbourhood
  rules : List LifeLikeTable

/-- `IndivAutomataRule::generate_rng`: fresh neighbourhood and
`0..=offsets().len()` fresh tables. -/
def IndivAutomataRule_generate (nb : PixelNeighbourhood)
    (fresh : ℕ → LifeLikeTable) : IndivAutomataRule :=
  ⟨nb, (List.range (nb.offsets.length + 1)).map fresh⟩

/-- `IndivAutomataRule::mutate_rng`: on `coin`, fully resample this
sub-rule; otherwise replace the table at
`thread_rng().gen::<usize>() % offsets().len()` (note: modulo the offset
count, not the rules length) with its mutated value `newT` (the result of
the derived `LifeLikeTable::mutate_rng`, abstracted as an oracle value). -/
def IndivAutomataRule_mutate (r : IndivAutomataRule) (coin : Bool)
    (freshNb : PixelNeighbourhood) (fresh : ℕ → LifeLikeTable)
    (j : ℕ) (newT : LifeLikeTable) : IndivAutomataRule :=
  if coin then IndivAutomataRule_generate freshNb fresh
  else { r with rules := r.rules.set (j % r.neighbourhood.offsets.length) newT }

/-- `LifeLikeAutomataRule`: a shuffled color order and one
`IndivAutomataRule` per color. -/
structure LifeLikeAutomataRule where
  color_order : Fin 8 → BitColor
  color_rules : Fin 8 → IndivAutomataRule

/-- `LifeLikeAutomataRule::generate_rng`: a freshly shuffled color order and
eight freshly generated color rules. -/
def LifeLikeAutomataRule_generate (order : Fin 8 → BitColor)
    (freshNb : Fin 8 → PixelNeighbourhood)
    (fresh : Fin 8 → ℕ → LifeLikeTable) : LifeLikeAutomataRule :=
  ⟨order, fun i => IndivAutomataRule_generate (freshNb i) (fresh i)⟩

/-- `LifeLikeAutomataRule::mutate_rng`: on `coin`, fully resample;
otherwise mutate `color_rules[thread_rng().gen::<usize>() % 8]` (which
itself coin-flips between resampling that entire sub-rule and replacing
one of its tables). -/
def LifeLikeAutomataRule_mutate (r : LifeLikeAutomataRule) (coin : Bool)
    (order : Fin 8 → BitColor) (freshNb : Fin 8 → PixelNeighbourhood)
    (fresh : Fin 8 → ℕ → LifeLikeTable) (idx : ℕ) (innerCoin : Bool)
    (innerNb : PixelNeighbourhood) (innerFresh : ℕ → LifeLikeTable)
    (j : ℕ) (newT : LifeLikeTable) : LifeLikeAutomataRule :=
  if coin then LifeLikeAutomataRule_generate order freshNb fresh
  else { r with color_rules := fun i =>
      if i = fin8 idx
      then (IndivAutomataRule_mutate (r.color_rules (fin8 idx)) innerCoin
        innerNb innerFresh j newT)
      else r.color_rules i }

/-! ## `src/datatype/point_sets.rs`: grid point-set generators

`x_count`/`y_count` are `Nibble` values (0–15); the arms add 1 before use.
The point coordinates are the exact rational cell-center formulas of the
source. -/

/-- The `UniformGrid` arm of `PointSetGenerator::generate_point_set`:
`x_count = nibble + 1` columns by `y_count = nibble + 1` rows of cell
centers, mapped to `[-1, 1]`. -/
def uniformGridPoints (a b : ℕ) : List (ℚ × ℚ) :=
  (List.range (a + 1)).flatMap fun x =>
    (List.range (b + 1)).map fun y =>
      (2 * ((1 / (a + 1 : ℚ)) * x + (1 / (a + 1 : ℚ)) * (1/2)) - 1,
       2 * ((1 / (b + 1 : ℚ)) * y + (1 / (b + 1 : ℚ)) * (1/2)) - 1)

/-- The odd-parity adjustment of the `SparseGrid` arm: even counts are
incremented. -/
def oddify (n : ℕ) : ℕ := if n % 2 = 0 then n + 1 else n

/-- The `SparseGrid` arm of `PointSetGenerator::generate_point_set`:
counts are `nibble + 1` adjusted to odd, and the cell `(x, y)` is dropped
iff `x % 2 == x_mod && y % 2 == y_mod`. -/
def sparseGridPoints (a b : ℕ) (xm ym : Bool) : List (ℚ × ℚ) :=
  (List.range (oddify (a + 1))).flatMap fun x =>
    ((List.range (oddify (b + 1))).filter fun y =>
      !(decide (x % 2 = (if xm then 1 else 0)) &&
        decide (y % 2 = (if ym then 1 else 0)))).map fun y =>
      (2 * ((1 / (oddify (a + 1) : ℚ)) * x + (1 / (oddify (a + 1) : ℚ)) * (1/2)) - 1,
       2 * ((1 / (oddify (b + 1) : ℚ)) * y + (1 / (oddify (b + 1) : ℚ)) * (1/2)) - 1)

/-! ## `src/datatype/point_sets.rs`: the Poisson-disk sampler

Parameter conventions (see also the module header): the sampler's `radius`
enters the source only through (a) distance comparisons
(`distance(..) <= radius`, candidate length in `radius..=2*radius`) and
(b) the cell geometry `cell_size = radius / sqrt(2)`.  The embedding takes
`r2 = radius²` for (a) and `cellSize = radius / √2` for (b) as separate
rational parameters linked by the hypothesis `2 * cellSize² = r2`
(`cell_size² = radius²/2`); distances are compared squared.

Randomness is an oracle: `seed` is the initial uniform point
(`rng.gen::<f32>()` twice, values in `[0,1)`), `pickActive i` the raw value
behind `gen_range(0..active.len())` at loop iteration `i` (reduced mod the
active length, which is surjective onto the range), and `candidate i a` the
offset vector `(cos θ · r, sin θ · r)` of attempt `a` in iteration `i` —
realizable iff its squared norm lies in `[r2, 4·r2]`.  The normaliser is
passed as the function it denotes (the source only ever calls
`normaliser.normalise`); `clampNormaliser` above is the `Clamp` variant. -/

/-- Oracle for one run of `poisson` (see section header). -/
structure PoissonOracle where
  seed : ℚ × ℚ
  pickActive : ℕ → ℕ
  candidate : ℕ → ℕ → ℚ × ℚ

/-- The mutable state of the sampler loop: placed points, active indices,
and the spatial grid (one optional point index per cell). -/
structure PoissonState where
  points : List (ℚ × ℚ)
  active : List ℕ
  grid : ℕ × ℕ → Option ℕ

/-- `p_to_grid`: `(((coord + 1.0) / cell_size).floor() as usize).min(grid_size - 1)`
per axis (Rust float →`usize` casts saturate at 0, as does `Int.toNat`). -/
def pToGrid (cellSize : ℚ) (gridSize : ℕ) (p : ℚ × ℚ) : ℕ × ℕ :=
  (min (⌊(p.1 + 1) / cellSize⌋.toNat) (gridSize - 1),
   min (⌊(p.2 + 1) / cellSize⌋.toNat) (gridSize - 1))

/-- `((g + t).max(0) as usize).min(grid_size - 1)`: the clamped neighbour
cell index of the 3×3 scan. -/
def clampGridIdx (gridSize : ℕ) (v : ℤ) : ℕ := min (max v 0).toNat (gridSize - 1)

/-- The 3×3 neighbour scan: `true` iff some registered point in the
candidate's own or one of the 8 neighbouring cells is at distance ≤ radius
(squared: `dist2 ≤ r2`) from the candidate. -/
def neighbourTooClose (r2 : ℚ) (st : PoissonState) (gridSize : ℕ)
    (g : ℕ × ℕ) (newP : ℚ × ℚ) : Bool :=
  ([-1, 0, 1] : List ℤ).any fun tx =>
    ([-1, 0, 1] : List ℤ).any fun ty =>
      match st.grid (clampGridIdx gridSize ((g.1 : ℤ) + tx),
                     clampGridIdx gridSize ((g.2 : ℤ) + ty)) with
      | some i => decide (dist2 (st.points.getD i (0, 0)) newP ≤ r2)
      | none => false

/-- The `'candidates` loop: up to `K = 30` attempts; each attempt offsets
the chosen active point `p` by the oracle's candidate vector, wraps both
coordinates through the normaliser, and accepts the first candidate whose
3×3 neighbour scan finds no point at distance ≤ radius. -/
def tryCandidates (r2 cellSize : ℚ) (gridSize : ℕ) (normalise : ℚ → ℚ)
    (o : PoissonOracle) (iter : ℕ) (st : PoissonState) (p : ℚ × ℚ) :
    ℕ → ℕ → Option (ℚ × ℚ)
  | 0, _ => none
  | fuel + 1, aIdx =>
      let dxy := o.candidate iter aIdx
      let newP := (normalise (p.1 + dxy.1), normalise (p.2 + dxy.2))
      if neighbourTooClose r2 st gridSize (pToGrid cellSize gridSize newP) newP
      then tryCandidates r2 cellSize gridSize normalise o iter st p fuel (aIdx + 1)
      else some newP

/-- The main sampler loop: while fewer than `count` points are placed and
the active list is nonempty, pick an active point, try candidates; on
success register the new point in the grid and both lists, on failure
remove the picked point from the active list.  `fuel` bounds the number of
iterations (every iteration either adds a point or removes an active
index, so `2 * count + 1` suffices; running out of fuel returns the state
unchanged, which only shortens the result). -/
def poissonLoop (count : ℕ) (r2 cellSize : ℚ) (gridSize : ℕ)
    (normalise : ℚ → ℚ) (o : PoissonOracle) :
    ℕ → ℕ → PoissonState → PoissonState
  | 0, _, st => st
  | fuel + 1, iter, st =>
      if st.points.length < count ∧ st.active ≠ [] then
        match tryCandidates r2 cellSize gridSize normalise o iter st
            (st.points.getD
              (st.active.getD (o.pickActive iter % st.active.length) 0) (0, 0))
            30 0 with
        | some newP =>
            poissonLoop count r2 cellSize gridSize normalise o fuel (iter + 1)
              { points := st.points ++ [newP],
                active := st.active ++ [st.points.length],
                grid := fun c =>
                  if c = pToGrid cellSize gridSize newP
                  then some st.points.length else st.grid c }
        | none =>
            poissonLoop count r2 cellSize gridSize normalise o fuel (iter + 1)
              { st with active :=
                  st.active.eraseIdx (o.pickActive iter % st.active.length) }
      else st

/-- `poisson(rng, count, radius, normaliser)`:
`grid_size = (1.0 / cell_size).ceil() as usize * 2`; seed with one random
point, registered as placed and active; run the loop. -/
def poisson (count : ℕ) (r2 cellSize : ℚ) (normalise : ℚ → ℚ)
    (o : PoissonOracle) : List (ℚ × ℚ) :=
  (poissonLoop count r2 cellSize ((⌈1 / cellSize⌉).toNat * 2) normalise o
    (2 * count + 1) 0
    { points := [o.seed], active := [0],
      grid := fun c =>
        if c = pToGrid cellSize ((⌈1 / cellSize⌉).toNat * 2) o.seed
        then some 0 else none }).points

/-- The pairwise separation property claimed for the sampler result:
all pairs of distinct positions are at squared distance at least `r2`. -/
def pairwiseSeparated (r2 : ℚ) (l : List (ℚ × ℚ)) : Prop :=
  ∀ i j, (hi : i < l.length) → (hj : j < l.length) → i ≠ j →
    r2 ≤ dist2 (l.get ⟨i, hi⟩) (l.get ⟨j, hj⟩)

/-- A concrete randomness stream for `poisson` with `count = 3`,
`radius = √2/4` (`r2 = 1/8`, `cellSize = 1/4`) and the `Clamp` normaliser:
seed `(0.9, 0.1)`; always pick active index 0; iteration 0 offsets by
`(-0.651, -0.1)` (squared length `0.433801 ∈ [1/8, 1/2]`), later iterations
by `(-0.399, 0)` (squared length `0.159201 ∈ [1/8, 1/2]`), so every
candidate offset is realizable as `(cos θ · r, sin θ · r)` with
`r ∈ [radius, 2·radius]`. -/
def cexOracle : PoissonOracle where
  seed := (9/10, 1/10)
  pickActive := fun _ => 0
  candidate := fun i _ => if i = 0 then (-(651/1000), -(1/10)) else (-(399/1000), 0)

/-! # Theorems -/

/-! ## C8: sawtooth / triangle normalizers on in-range input -/

lemma fractQ_of_Ico (v : ℚ) (h0 : 0 ≤ v) (h1 : v < 1) : fractQ v = v := by
  unfold fractQ truncQ
  rw [if_pos h0]
  have : ⌊v⌋ = 0 := by
    rw [Int.floor_eq_zero_iff]; exact ⟨h0, h1⟩
  simp [this]

lemma fractQ_of_neg_Ioo (v : ℚ) (h0 : -1 < v) (h1 : v < 0) : fractQ v = v := by
  unfold fractQ truncQ
  rw [if_neg (by linarith)]
  have : ⌈v⌉ = 0 := by
    rw [Int.ceil_eq_zero_iff]; constructor <;> [linarith; linarith]
  simp [this]

lemma signumMin0_of_nonneg (v : ℚ) (h : 0 ≤ v) : signumMin0 v = 0 := by
  unfold signumMin0; rw [if_neg (by linarith)]

lemma signumMin0_of_neg (v : ℚ) (h : v < 0) : signumMin0 v = -1 := by
  unfold signumMin0; rw [if_pos h]

/-- C8 (counterexample): the sawtooth normalizers are NOT the identity at the
right endpoint of their range: `UNFloat::new_sawtooth(1.0) = 0.0 ≠ 1.0` and
`SNFloat::new_sawtooth(1.0) = -1.0 ≠ 1.0`. -/
theorem sawtooth_not_identity_at_one :
    UNFloat_new_sawtooth 1 = 0 ∧ SNFloat_new_sawtooth 1 = -1 := by
  constructor
  · unfold UNFloat_new_sawtooth fractQ truncQ signumMin0
    norm_num
  · unfold SNFloat_new_sawtooth fractQ truncQ signumMin0
    norm_num

/-- C8 (amended): the sawtooth normalizers are the identity on the half-open
ranges `[0,1)` resp. `[-1,1)` and wrap the right endpoint to the left one;
the triangle normalizers are the identity on the full closed ranges `[0,1]`
resp. `[-1,1]`. -/
theorem sawtooth_triangle_identity (v : ℚ) :
    (0 ≤ v → v < 1 → UNFloat_new_sawtooth v = v) ∧
    (0 ≤ v → v ≤ 1 → UNFloat_new_triangle v = v) ∧
    (-1 ≤ v → v < 1 → SNFloat_new_sawtooth v = v) ∧
    (-1 ≤ v → v ≤ 1 → SNFloat_new_triangle v = v) := by
  refine ⟨fun h0 h1 => ?_, fun h0 h1 => ?_, fun h0 h1 => ?_, fun h0 h1 => ?_⟩
  · rw [UNFloat_new_sawtooth, fractQ_of_Ico v h0 h1, signumMin0_of_nonneg v h0]
    ring
  · unfold UNFloat_new_triangle
    rcases eq_or_lt_of_le h1 with h1 | h1
    · subst h1
      have hs : ((1:ℚ) - 1) / 2 = 0 := by norm_num
      rw [hs, fractQ_of_Ico 0 le_rfl (by norm_num), signumMin0_of_nonneg 0 le_rfl]
      rw [show (0:ℚ) - 0 - 1/2 = -(1/2) by ring, abs_neg,
        abs_of_nonneg (by norm_num : (0:ℚ) ≤ 1/2)]
      norm_num
    · have hs0 : -1 < (v - 1) / 2 := by linarith
      have hs1 : (v - 1) / 2 < 0 := by linarith
      rw [fractQ_of_neg_Ioo _ hs0 hs1, signumMin0_of_neg _ hs1]
      rw [abs_of_nonneg (by linarith)]
      ring
  · have hs0 : 0 ≤ (v + 1) / 2 := by linarith
    have hs1 : (v + 1) / 2 < 1 := by linarith
    rw [SNFloat_new_sawtooth, fractQ_of_Ico _ hs0 hs1, signumMin0_of_nonneg _ hs0]
    ring
  · unfold SNFloat_new_triangle
    rcases eq_or_lt_of_le h1 with h1 | h1
    · subst h1
      have hs : ((1:ℚ) - 1) / 4 = 0 := by norm_num
      rw [hs, fractQ_of_Ico 0 le_rfl (by norm_num), signumMin0_of_nonneg 0 le_rfl]
      rw [show (0:ℚ) - 0 - 1/2 = -(1/2) by ring, abs_neg,
        abs_of_nonneg (by norm_num : (0:ℚ) ≤ 1/2)]
      norm_num
    · have hs0 : -1 < (v - 1) / 4 := by linarith
      have hs1 : (v - 1) / 4 < 0 := by linarith
      rw [fractQ_of_neg_Ioo _ hs0 hs1, signumMin0_of_neg _ hs1]
      rw [abs_of_nonneg (by linarith)]
      ring

/-- C8 witness: the amended identity evaluated at `v = 0`. -/
theorem sawtooth_triangle_identity_witness :
    UNFloat_new_sawtooth 0 = 0 ∧ SNFloat_new_triangle 0 = 0 :=
  ⟨(sawtooth_triangle_identity 0).1 le_rfl (by norm_num),
   (sawtooth_triangle_identity 0).2.2.2 (by norm_num) (by norm_num)⟩

/-! ## C6: division / modulus by zero on the integer types -/

lemma wrap32_eq_self (v : ℤ) (h0 : -2 ^ 31 ≤ v) (h1 : v < 2 ^ 31) :
    wrap32 v = v := by
  unfold wrap32
  omega

lemma tdiv_by_one (x : ℤ) : Int.tdiv x 1 = x := by
  cases x <;> simp only [Int.tdiv, Nat.div_one, Int.negSucc_eq] <;> simp

lemma tdiv_by_neg_one (x : ℤ) : Int.tdiv x (-1) = -x := by
  have h : (-1 : ℤ) = Int.negSucc 0 := rfl
  rw [h]
  cases x <;> simp only [Int.tdiv, Nat.div_one, Int.negSucc_eq] <;> simp

lemma natAbs_tdiv_eq (x d : ℤ) : (Int.tdiv x d).natAbs = x.natAbs / d.natAbs := by
  cases x <;> cases d <;> simp only [Int.tdiv, Int.natAbs_neg] <;> rfl

/-- C6 (counterexample): for `SInt`, `divide(i32::MIN, -1)` wraps: the code
returns `i32::MIN`, not the ordinary (truncated) quotient `2³¹`. -/
theorem sint_divide_min_neg_one :
    SInt_divide (-2 ^ 31) (-1) = -2 ^ 31 ∧
      Int.tdiv (-2 ^ 31) (-1) = 2 ^ 31 ∧ (-2 ^ 31 : ℤ) ≠ 2 ^ 31 := by
  refine ⟨?_, by decide, by decide⟩
  unfold SInt_divide wrap32
  decide

/-- C6 (amended): on every in-range value, division/modulus by a zero divisor
returns the zero divisor itself without panicking, and for a nonzero divisor
the operations return the ordinary truncated quotient and remainder — except
that `SInt::divide(i32::MIN, -1)` returns the quotient wrapped to 32 bits
(`i32::MIN`) rather than the unrepresentable `2³¹`. -/
theorem divide_modulus_by_zero_policy (x d : ℕ) (xi di : ℤ)
    (hx : x < 2 ^ 32) (hd : d < 2 ^ 32)
    (hxi0 : -2 ^ 31 ≤ xi) (hxi1 : xi < 2 ^ 31)
    (hdi0 : -2 ^ 31 ≤ di) (hdi1 : di < 2 ^ 31) :
    (Nibble_divide x 0 = 0 ∧ Nibble_modulus x 0 = 0 ∧
     Byte_divide x 0 = 0 ∧ Byte_modulus x 0 = 0 ∧
     UInt_divide x 0 = 0 ∧ UInt_modulus x 0 = 0 ∧
     SInt_divide xi 0 = 0 ∧ SInt_modulus xi 0 = 0) ∧
    (d ≠ 0 →
      Nibble_divide x d = x / d ∧
      (x < 16 → d < 16 → Nibble_modulus x d = x % d) ∧
      Byte_divide x d = x / d ∧ Byte_modulus x d = x % d ∧
      UInt_divide x d = x / d ∧ UInt_modulus x d = x % d) ∧
    (di ≠ 0 →
      SInt_modulus xi di = Int.tmod xi di ∧
      (¬(xi = -2 ^ 31 ∧ di = -1) → SInt_divide xi di = Int.tdiv xi di)) := by
  refine ⟨?_, fun hdne => ?_, fun hdine => ?_⟩
  · simp [Nibble_divide, Nibble_modulus, Byte_divide, Byte_modulus,
      UInt_divide, UInt_modulus, SInt_divide, SInt_modulus]
  · refine ⟨?_, fun hx16 hd16 => ?_, ?_, ?_, ?_, ?_⟩ <;>
      simp only [Nibble_divide, Nibble_modulus, Byte_divide, Byte_modulus,
        UInt_divide, UInt_modulus, if_neg hdne]
    exact Nat.mod_eq_of_lt (lt_of_lt_of_le (Nat.mod_lt x (Nat.pos_of_ne_zero hdne))
      (by omega))
  · refine ⟨by simp only [SInt_modulus, if_neg hdine], fun hnotmin => ?_⟩
    simp only [SInt_divide, if_neg hdine]
    rcases eq_or_ne di 1 with rfl | hd1
    · rw [tdiv_by_one]
      exact wrap32_eq_self xi hxi0 hxi1
    rcases eq_or_ne di (-1) with rfl | hdm1
    · rw [tdiv_by_neg_one]
      have hxmin : xi ≠ -2 ^ 31 := fun h => hnotmin ⟨h, rfl⟩
      exact wrap32_eq_self (-xi) (by omega) (by omega)
    · have hd2 : 2 ≤ di.natAbs := by omega
      have hq := natAbs_tdiv_eq xi di
      have hle : xi.natAbs / di.natAbs ≤ xi.natAbs / 2 :=
        Nat.div_le_div_left hd2 (by omega)
      have hxa : xi.natAbs ≤ 2 ^ 31 := by omega
      have : (Int.tdiv xi di).natAbs ≤ 2 ^ 30 := by
        rw [hq]; omega
      exact wrap32_eq_self _ (by omega) (by omega)

/-- C6 witness: the policy at `x = 7, d = 3` (and `SInt` at `-7, 3`). -/
theorem divide_modulus_by_zero_policy_witness :
    Nibble_divide 7 0 = 0 ∧ Nibble_divide 7 3 = 2 ∧
      SInt_modulus (-7) 3 = Int.tmod (-7) 3 := by
  have h := divide_modulus_by_zero_policy 7 3 (-7) 3
    (by norm_num) (by norm_num) (by norm_num) (by norm_num) (by norm_num) (by norm_num)
  exact ⟨h.1.1, by rw [(h.2.1 (by norm_num)).1], (h.2.2 (by norm_num)).1⟩

/-! ## C3: alpha channel under blending -/

/-- C3 (counterexample): `Dissolve` does not blend alpha as the arithmetic
mean — it returns one of the two inputs wholesale.  With `a.a = 0` and
`b.a = 1`, both possible outcomes have alpha different from `1/2`. -/
theorem dissolve_alpha_not_mean :
    (ColorBlendFunctions.blend .Dissolve true ⟨0,0,0,0⟩ ⟨1,1,1,1⟩).a ≠
        (0 + 1) * (1/2 : ℚ) ∧
      (ColorBlendFunctions.blend .Dissolve false ⟨0,0,0,0⟩ ⟨1,1,1,1⟩).a ≠
        (0 + 1) * (1/2 : ℚ) := by
  constructor <;> norm_num [ColorBlendFunctions.blend]

/-- C3 (amended): for `Overlay` and `ScreenDodge` the alpha channel of the
blend is the arithmetic mean of the inputs' alphas; `Dissolve` instead
returns one of the two input colors wholesale. -/
theorem blend_alpha_mean (a b : FloatColor) (choice : Bool) :
    (ColorBlendFunctions.blend .Overlay choice a b).a = (a.a + b.a) * (1/2) ∧
    (ColorBlendFunctions.blend .ScreenDodge choice a b).a = (a.a + b.a) * (1/2) ∧
    (ColorBlendFunctions.blend .Dissolve choice a b = a ∨
      ColorBlendFunctions.blend .Dissolve choice a b = b) := by
  refine ⟨rfl, rfl, ?_⟩
  cases choice
  · exact Or.inr rfl
  · exact Or.inl rfl

/-! ## C4: the Overlay per-channel formula -/

/-- C4: the `< 0.5` branch of `Overlay` computes `(2·a·b).max(1.0)` — a slip
for `.min(1.0)` — so the result channel is the constant `1.0`, not the
standard overlay value `2·a·b`.  At `a.r = b.r = 0` the code yields `1`,
where the claim (and the spec's "standard overlay formula") require `0`. -/
theorem overlay_low_branch_is_one :
    (ColorBlendFunctions.blend .Overlay true ⟨0,0,0,0⟩ ⟨0,0,0,0⟩).r = 1 ∧
      2 * (0:ℚ) * 0 = 0 ∧ (1:ℚ) ≠ 0 := by
  refine ⟨?_, by norm_num, by norm_num⟩
  norm_num [ColorBlendFunctions.blend]

/-! ## C5: the `SNPoint::new` assertion misses two bounds -/

/-- C5: `SNPoint::new` does NOT panic on every unit-square violation: its
assertion checks `x ≥ -1` and `y ≤ 1` twice each (a copy-paste slip) and
never checks `x ≤ 1` or `y ≥ -1`.  The point `(2, 0)` violates the unit
square yet passes the assertion, so the trusted constructor accepts it. -/
theorem snpoint_new_accepts_out_of_range :
    SNPoint_new_assert 2 0 ∧ ¬ inUnitSquare 2 0 := by
  constructor
  · refine ⟨by norm_num, by norm_num, by norm_num, by norm_num⟩
  · intro h
    exact absurd h.2.1 (by norm_num)

/-! ## C2: range of `Angle::new` -/

lemma fractQ_bounds_of_nonneg (q : ℚ) (h : 0 ≤ q) : 0 ≤ fractQ q ∧ fractQ q < 1 := by
  unfold fractQ truncQ
  rw [if_pos h]
  constructor
  · have := Int.floor_le q
    linarith
  · have := Int.lt_floor_add_one q
    push_cast
    linarith

lemma fractQ_bounds_of_neg (q : ℚ) (h : q < 0) : -1 < fractQ q ∧ fractQ q ≤ 0 := by
  unfold fractQ truncQ
  rw [if_neg (by linarith)]
  constructor
  · have := Int.ceil_lt_add_one q
    push_cast at this ⊢
    linarith
  · have := Int.le_ceil q
    linarith

/-- C2 (counterexample): `Angle::new(0.0)` takes the `Ordering::Equal` branch
and returns `0.0 - π = -π`, which is not strictly greater than `-π`; the
claimed interval `(-π, π]` is violated at `v = 0`. -/
theorem angle_new_zero_is_neg_pi :
    Angle_new 0 = -PI32 ∧ ¬ (-PI32 < Angle_new 0) := by
  have h : Angle_new 0 = -PI32 := by
    unfold Angle_new
    norm_num
  exact ⟨h, by rw [h]; exact lt_irrefl _⟩

/-- C2 (amended): for every input `v`, `Angle::new(v)` returns a value in the
closed interval `[-π, π]` (so its internal assertion never fires); the left
endpoint `-π` is attained, e.g. at `v = 0`. -/
theorem angle_new_range (v : ℚ) :
    -PI32 ≤ Angle_new v ∧ Angle_new v ≤ PI32 := by
  have hpi : 0 < PI32 := by norm_num [PI32]
  unfold Angle_new
  split_ifs with h1 h2
  · have hx : 0 ≤ v / (2 * PI32) := by positivity
    rcases fractQ_bounds_of_nonneg _ hx with ⟨hf0, hf1⟩
    constructor <;> nlinarith
  · have hx : v / (2 * PI32) < 0 := div_neg_of_neg_of_pos h2 (by linarith)
    rcases fractQ_bounds_of_neg _ hx with ⟨hf0, hf1⟩
    constructor <;> nlinarith
  · have hv : v = 0 := le_antisymm (not_lt.mp h1) (not_lt.mp h2)
    rw [hv]
    constructor <;> linarith

/-! ## C10: closest / furthest point queries -/

lemma minByKeyAux_spec {α : Type} (key : α → ℚ) (m : α) (l : List α) :
    (minByKeyAux key m l = m ∨ minByKeyAux key m l ∈ l) ∧
      key (minByKeyAux key m l) ≤ key m ∧
      ∀ x ∈ l, key (minByKeyAux key m l) ≤ key x := by
  induction l generalizing m with
  | nil => simp [minByKeyAux]
  | cons x xs ih =>
    simp only [minByKeyAux]
    by_cases hxm : key x < key m
    · rw [if_pos hxm]
      rcases ih x with ⟨hmem, hle, hall⟩
      refine ⟨?_, le_trans hle (le_of_lt hxm), ?_⟩
      · rcases hmem with h | h
        · exact Or.inr (by rw [h]; exact List.mem_cons_self x xs)
        · exact Or.inr (List.mem_cons_of_mem x h)
      · intro y hy
        rcases List.mem_cons.mp hy with rfl | hy
        · exact hle
        · exact hall y hy
    · rw [if_neg hxm]
      rcases ih m with ⟨hmem, hle, hall⟩
      refine ⟨?_, hle, ?_⟩
      · rcases hmem with h | h
        · exact Or.inl h
        · exact Or.inr (List.mem_cons_of_mem x h)
      · intro y hy
        rcases List.mem_cons.mp hy with rfl | hy
        · exact le_trans hle (not_lt.mp hxm)
        · exact hall y hy

lemma maxByKeyAux_spec {α : Type} (key : α → ℚ) (m : α) (l : List α) :
    (maxByKeyAux key m l = m ∨ maxByKeyAux key m l ∈ l) ∧
      key m ≤ key (maxByKeyAux key m l) ∧
      ∀ x ∈ l, key x ≤ key (maxByKeyAux key m l) := by
  induction l generalizing m with
  | nil => simp [maxByKeyAux]
  | cons x xs ih =>
    simp only [maxByKeyAux]
    by_cases hxm : key m ≤ key x
    · rw [if_pos hxm]
      rcases ih x with ⟨hmem, hle, hall⟩
      refine ⟨?_, le_trans hxm hle, ?_⟩
      · rcases hmem with h | h
        · exact Or.inr (by rw [h]; exact List.mem_cons_self x xs)
        · exact Or.inr (List.mem_cons_of_mem x h)
      · intro y hy
        rcases List.mem_cons.mp hy with rfl | hy
        · exact hle
        · exact hall y hy
    · rw [if_neg hxm]
      rcases ih m with ⟨hmem, hle, hall⟩
      refine ⟨?_, hle, ?_⟩
      · rcases hmem with h | h
        · exact Or.inl h
        · exact Or.inr (List.mem_cons_of_mem x h)
      · intro y hy
        rcases List.mem_cons.mp hy with rfl | hy
        · exact le_trans (le_of_lt (not_le.mp hxm)) hle
        · exact hall y hy

/-- C10: `get_closest_point`/`get_furthest_point` never panic; whenever the
set contains a point different from the query point they return a point of
the set (different from the query) at minimal resp. maximal Euclidean
distance (equivalently, minimal/maximal squared distance), and when every
point of the set equals the query point they return the query point itself. -/
theorem get_closest_furthest_point_spec (points : List (ℚ × ℚ)) (other : ℚ × ℚ) :
    ((∃ p ∈ points, p ≠ other) →
      (PointSet_get_closest_point points other ∈ points ∧
        PointSet_get_closest_point points other ≠ other ∧
        ∀ q ∈ points, q ≠ other →
          dist2 (PointSet_get_closest_point points other) other ≤ dist2 q other) ∧
      (PointSet_get_furthest_point points other ∈ points ∧
        PointSet_get_furthest_point points other ≠ other ∧
        ∀ q ∈ points, q ≠ other →
          dist2 q other ≤ dist2 (PointSet_get_furthest_point points other) other)) ∧
    ((∀ p ∈ points, p = other) →
      PointSet_get_closest_point points other = other ∧
      PointSet_get_furthest_point points other = other) := by
  constructor
  · rintro ⟨p, hp, hpne⟩
    have hpl : p ∈ points.filter (fun q => decide (q ≠ other)) :=
      List.mem_filter.mpr ⟨hp, by simp [hpne]⟩
    cases hfl : points.filter (fun q => decide (q ≠ other)) with
    | nil => rw [hfl] at hpl; cases hpl
    | cons x xs =>
      have hclo : PointSet_get_closest_point points other =
          minByKeyAux (fun q => dist2 q other) x xs := by
        unfold PointSet_get_closest_point
        rw [hfl]
        rfl
      have hfur : PointSet_get_furthest_point points other =
          maxByKeyAux (fun q => dist2 q other) x xs := by
        unfold PointSet_get_furthest_point
        rw [hfl]
        rfl
      rcases minByKeyAux_spec (fun q => dist2 q other) x xs with ⟨hmem, hlex, hall⟩
      rcases maxByKeyAux_spec (fun q => dist2 q other) x xs with ⟨hmem', hlex', hall'⟩
      have hres_mem : minByKeyAux (fun q => dist2 q other) x xs ∈
          points.filter (fun q => decide (q ≠ other)) := by
        rw [hfl]
        rcases hmem with h | h
        · rw [h]; exact List.mem_cons_self x xs
        · exact List.mem_cons_of_mem x h
      have hres_mem' : maxByKeyAux (fun q => dist2 q other) x xs ∈
          points.filter (fun q => decide (q ≠ other)) := by
        rw [hfl]
        rcases hmem' with h | h
        · rw [h]; exact List.mem_cons_self x xs
        · exact List.mem_cons_of_mem x h
      rcases List.mem_filter.mp hres_mem with ⟨hin, hne⟩
      rcases List.mem_filter.mp hres_mem' with ⟨hin', hne'⟩
      refine ⟨⟨by rw [hclo]; exact hin, by rw [hclo]; simpa using hne, ?_⟩,
        ⟨by rw [hfur]; exact hin', by rw [hfur]; simpa using hne', ?_⟩⟩
      · intro q hq hqne
        have hql : q ∈ points.filter (fun r => decide (r ≠ other)) :=
          List.mem_filter.mpr ⟨hq, by simp [hqne]⟩
        rw [hfl] at hql
        rw [hclo]
        rcases List.mem_cons.mp hql with rfl | hq'
        · exact hlex
        · exact hall q hq'
      · intro q hq hqne
        have hql : q ∈ points.filter (fun r => decide (r ≠ other)) :=
          List.mem_filter.mpr ⟨hq, by simp [hqne]⟩
        rw [hfl] at hql
        rw [hfur]
        rcases List.mem_cons.mp hql with rfl | hq'
        · exact hlex'
        · exact hall' q hq'
  · intro hall
    have hfl : points.filter (fun q => decide (q ≠ other)) = [] := by
      rw [List.filter_eq_nil]
      intro a ha
      simp [hall a ha]
    constructor
    · unfold PointSet_get_closest_point
      rw [hfl]
      rfl
    · unfold PointSet_get_furthest_point
      rw [hfl]
      rfl

/-- C10 witness: the specification applied to the concrete set
`[(1,0), (0,0)]` and query point `(0,0)`. -/
theorem get_closest_furthest_point_spec_witness :
    PointSet_get_closest_point [((1:ℚ),(0:ℚ)), (0,0)] (0,0) ∈
        [((1:ℚ),(0:ℚ)), (0,0)] ∧
      PointSet_get_closest_point [((1:ℚ),(0:ℚ)), (0,0)] (0,0) ≠ (0,0) :=
  ⟨((get_closest_furthest_point_spec [((1:ℚ),(0:ℚ)), (0,0)] (0,0)).1
      ⟨(1,0), List.mem_cons_self _ _, by norm_num⟩).1.1,
   ((get_closest_furthest_point_spec [((1:ℚ),(0:ℚ)), (0,0)] (0,0)).1
      ⟨(1,0), List.mem_cons_self _ _, by norm_num⟩).1.2.1⟩

/-! ## C7: the mutation policy of the rule types -/

/-- C7 (counterexample): `NeighbourCountAutomataRule::mutate_rng` never
fully resamples — its full-resample line is commented out, so every outcome
changes at most the single chosen table entry.  Starting from the all-Black
rule over the `Vertical` neighbourhood, no randomness outcome can reach the
all-White full-resample result (a reachable `generate_rng` outcome), because
at least one of the entries `(0,0,0)`, `(1,1,1)` is left untouched. -/
theorem nc_mutate_never_full_resample :
    ¬ ∃ (ir ig ib : ℕ) (c : BitColor),
      NeighbourCountAutomataRule_mutate ⟨.Vertical, fun _ => .Black⟩ ir ig ib c =
        NeighbourCountAutomataRule_generate .Vertical (fun _ => .White) := by
  rintro ⟨ir, ig, ib, c, h⟩
  simp only [NeighbourCountAutomataRule_mutate, NeighbourCountAutomataRule_generate,
    PixelNeighbourhood.offsets, List.length_cons, List.length_nil] at h
  have htt := congrArg NeighbourCountAutomataRule.truth_table h
  by_cases h0 : ((0, 0, 0) : ℕ × ℕ × ℕ) = (ir % (0 + 1 + 1 + 1), ig % (0 + 1 + 1 + 1),
      ib % (0 + 1 + 1 + 1))
  · have h1 := congrFun htt (1, 1, 1)
    simp only at h1
    rw [← h0, if_neg (by simp)] at h1
    exact BitColor.noConfusion h1
  · have h1 := congrFun htt (0, 0, 0)
    simp only at h1
    rw [if_neg h0] at h1
    exact BitColor.noConfusion h1

/-- C7 (amended): `ElementaryAutomataRule` follows the claimed policy (coin
flip between full resample and flipping exactly one uniformly chosen entry);
`NeighbourCountAutomataRule::mutate_rng` leaves every entry other than the
single chosen one unchanged (and, per the counterexample, has no
full-resample outcome); `LifeLikeAutomataRule` coin-flips between full
resample and mutating exactly one color rule, whose own mutation is not a
single-leaf change in general (it recursively coin-flips between resampling
that entire sub-rule and replacing one of its tables). -/
theorem automata_mutate_policy :
    (∀ (r : ElementaryAutomataRule) (fresh : Fin 8 → Bool) (idx : ℕ),
      ElementaryAutomataRule_mutate r true fresh idx =
          ElementaryAutomataRule_generate fresh ∧
        (ElementaryAutomataRule_mutate r false fresh idx).pattern (fin8 idx) =
          !(r.pattern (fin8 idx)) ∧
        ∀ i : Fin 8, i ≠ fin8 idx →
          (ElementaryAutomataRule_mutate r false fresh idx).pattern i =
            r.pattern i) ∧
    (∀ (r : NeighbourCountAutomataRule) (ir ig ib : ℕ) (c : BitColor)
        (t : ℕ × ℕ × ℕ),
      t ≠ (ir % (r.neighbourhood.offsets.length + 1),
           ig % (r.neighbourhood.offsets.length + 1),
           ib % (r.neighbourhood.offsets.length + 1)) →
        (NeighbourCountAutomataRule_mutate r ir ig ib c).truth_table t =
          r.truth_table t) ∧
    (∀ (r : LifeLikeAutomataRule) (order : Fin 8 → BitColor)
        (freshNb : Fin 8 → PixelNeighbourhood) (fresh : Fin 8 → ℕ → LifeLikeTable)
        (idx : ℕ) (innerCoin : Bool) (innerNb : PixelNeighbourhood)
        (innerFresh : ℕ → LifeLikeTable) (j : ℕ) (newT : LifeLikeTable),
      LifeLikeAutomataRule_mutate r true order freshNb fresh idx innerCoin
          innerNb innerFresh j newT =
        LifeLikeAutomataRule_generate order freshNb fresh ∧
      (LifeLikeAutomataRule_mutate r false order freshNb fresh idx innerCoin
          innerNb innerFresh j newT).color_order = r.color_order ∧
      ∀ i : Fin 8, i ≠ fin8 idx →
        (LifeLikeAutomataRule_mutate r false order freshNb fresh idx innerCoin
          innerNb innerFresh j newT).color_rules i = r.color_rules i) := by
  refine ⟨fun r fresh idx => ⟨rfl, ?_, ?_⟩, fun r ir ig ib c t ht => ?_,
    fun r order freshNb fresh idx innerCoin innerNb innerFresh j newT =>
      ⟨rfl, rfl, ?_⟩⟩
  · simp [ElementaryAutomataRule_mutate]
  · intro i hi
    simp [ElementaryAutomataRule_mutate, hi]
  · simp [NeighbourCountAutomataRule_mutate, ht]
  · intro i hi
    simp [LifeLikeAutomataRule_mutate, hi]

/-- C7 witness: the elementary-rule policy applied at a concrete rule. -/
theorem automata_mutate_policy_witness :
    ElementaryAutomataRule_mutate ⟨fun _ => false⟩ true (fun _ => true) 0 =
      ElementaryAutomataRule_generate (fun _ => true) :=
  (automata_mutate_policy.1 ⟨fun _ => false⟩ (fun _ => true) 0).1

/-! ## C9: point-set generator length invariant -/

/-- C9: the length invariant is violated by a reachable descriptor.
`SparseGrid { x_count: 0, y_count: 0, x_mod: false, y_mod: false }` (all
generatable by `PointSetGenerator::random`) produces a 1×1 grid whose only
cell `(0,0)` is dropped by the sparseness filter, leaving an EMPTY point
list, so `generate_point_set` trips its own `points.len() > 0` assertion
and panics instead of returning a `PointSet`.  The `UniformGrid{1,1}` part
of the claim does hold: exactly the four points `(±0.5, ±0.5)`. -/
theorem sparse_grid_empty_and_uniform_grid_exact :
    sparseGridPoints 0 0 false false = [] ∧
      uniformGridPoints 1 1 =
        [(-(1/2 : ℚ), -(1/2 : ℚ)), (-(1/2), 1/2), (1/2, -(1/2)), (1/2, 1/2)] := by
  constructor
  · rfl
  · show (List.range 2).flatMap _ = _
    rw [List.range_succ, List.range_succ, List.range_zero]
    simp only [List.flatMap_cons, List.flatMap_nil, List.map_cons, List.map_nil,
      List.nil_append, List.append_nil, List.cons_append, List.singleton_append]
    norm_num

/-! ## C1: the Poisson-disk sampler -/

lemma poissonLoop_length_bounds (count : ℕ) (r2 cellSize : ℚ) (gridSize : ℕ)
    (normalise : ℚ → ℚ) (o : PoissonOracle) (fuel iter : ℕ) (st : PoissonState)
    (h1 : 1 ≤ st.points.length) (h2 : st.points.length ≤ count) :
    1 ≤ (poissonLoop count r2 cellSize gridSize normalise o fuel iter st).points.length ∧
      (poissonLoop count r2 cellSize gridSize normalise o fuel iter st).points.length ≤
        count := by
  induction fuel generalizing iter st with
  | zero => exact ⟨h1, h2⟩
  | succ n ih =>
    rw [poissonLoop]
    split
    · split
      · apply ih
        · simp only [List.length_append, List.length_cons, List.length_nil]
          omega
        · simp only [List.length_append, List.length_cons, List.length_nil]
          omega
      · exact ih _ _ h1 h2
    · exact ⟨h1, h2⟩

/-- C1 (amended): for every `count > 0`, `radius > 0`, normaliser and
randomness source, the Poisson sampler returns between 1 and `count`
points.  (`r2`/`cellSize` represent `radius²` and `radius/√2`; the bound
holds for arbitrary parameter values, in particular the linked ones.) -/
theorem poisson_length_bounds (count : ℕ) (r2 cellSize : ℚ)
    (normalise : ℚ → ℚ) (o : PoissonOracle) (hc : 0 < count) :
    1 ≤ (poisson count r2 cellSize normalise o).length ∧
      (poisson count r2 cellSize normalise o).length ≤ count := by
  unfold poisson
  exact poissonLoop_length_bounds count r2 cellSize _ normalise o _ 0 _
    (by simp) (by simpa using hc)

/-- C1 witness: the length bounds at a concrete degenerate call. -/
theorem poisson_length_bounds_witness :
    1 ≤ (poisson 1 1 1 id ⟨(0, 0), fun _ => 0, fun _ _ => (0, 0)⟩).length ∧
      (poisson 1 1 1 id ⟨(0, 0), fun _ => 0, fun _ _ => (0, 0)⟩).length ≤ 1 :=
  poisson_length_bounds 1 1 1 id ⟨(0, 0), fun _ => 0, fun _ _ => (0, 0)⟩
    (by norm_num)

lemma cex_norm_A : clampNormaliser (249/1000) = 249/1000 := by
  unfold clampNormaliser nonNormalToDefault SNFloat_new_clamped
  rw [abs_of_nonneg (by norm_num : (0:ℚ) ≤ 249/1000), if_neg (by norm_num),
    max_eq_left (by norm_num), min_eq_left (by norm_num)]

lemma cex_norm_zero : clampNormaliser 0 = 0 := by
  unfold clampNormaliser nonNormalToDefault SNFloat_new_clamped
  rw [abs_of_nonneg le_rfl, if_pos (by norm_num),
    max_eq_left (by norm_num), min_eq_left (by norm_num)]

lemma cex_norm_B : clampNormaliser (501/1000) = 501/1000 := by
  unfold clampNormaliser nonNormalToDefault SNFloat_new_clamped
  rw [abs_of_nonneg (by norm_num : (0:ℚ) ≤ 501/1000), if_neg (by norm_num),
    max_eq_left (by norm_num), min_eq_left (by norm_num)]

lemma cex_norm_C : clampNormaliser (1/10) = 1/10 := by
  unfold clampNormaliser nonNormalToDefault SNFloat_new_clamped
  rw [abs_of_nonneg (by norm_num : (0:ℚ) ≤ 1/10), if_neg (by norm_num),
    max_eq_left (by norm_num), min_eq_left (by norm_num)]

lemma cex_cell_seed : pToGrid (1/4) 8 ((9/10 : ℚ), (1/10 : ℚ)) = (7, 4) := by
  norm_num [pToGrid]
  constructor <;> decide

lemma cex_cell_P : pToGrid (1/4) 8 ((249/1000 : ℚ), (0 : ℚ)) = (4, 4) := by
  norm_num [pToGrid]
  decide

lemma cex_cell_B : pToGrid (1/4) 8 ((501/1000 : ℚ), (1/10 : ℚ)) = (6, 4) := by
  norm_num [pToGrid]
  constructor <;> decide

lemma cex_scan1 :
    neighbourTooClose (1/8) ⟨[(9/10, 1/10)], [0],
      fun c => if c = (7, 4) then some 0 else none⟩ 8 (4, 4) (249/1000, 0) =
      false := by
  simp [neighbourTooClose, clampGridIdx]

lemma cex_scan2 :
    neighbourTooClose (1/8) ⟨[(9/10, 1/10), (249/1000, 0)], [0, 1],
      fun c => if c = (4, 4) then some 1 else
        if c = (7, 4) then some 0 else none⟩ 8 (6, 4) (501/1000, 1/10) =
      false := by
  simp [neighbourTooClose, clampGridIdx]
  norm_num [dist2]

lemma cex_try0 :
    tryCandidates (1/8) (1/4) 8 clampNormaliser cexOracle 0
      ⟨[(9/10, 1/10)], [0], fun c => if c = (7, 4) then some 0 else none⟩
      (9/10, 1/10) 30 0 = some (249/1000, 0) := by
  rw [show (30 : ℕ) = 29 + 1 from rfl, tryCandidates]
  norm_num [cexOracle]
  rw [cex_norm_A, cex_norm_zero, cex_cell_P, cex_scan1]
  simp

lemma cex_try1 :
    tryCandidates (1/8) (1/4) 8 clampNormaliser cexOracle 1
      ⟨[(9/10, 1/10), (249/1000, 0)], [0, 1],
        fun c => if c = (4, 4) then some 1 else
          if c = (7, 4) then some 0 else none⟩
      (9/10, 1/10) 30 0 = some (501/1000, 1/10) := by
  rw [show (30 : ℕ) = 29 + 1 from rfl, tryCandidates]
  norm_num [cexOracle]
  rw [cex_norm_B, cex_norm_C, cex_cell_B, cex_scan2]
  simp

lemma cexOracle_pick (i : ℕ) : cexOracle.pickActive i = 0 := rfl

lemma cex_step0 (fuel : ℕ) :
    poissonLoop 3 (1/8) (1/4) 8 clampNormaliser cexOracle (fuel + 1) 0
      ⟨[(9/10, 1/10)], [0], fun c => if c = (7, 4) then some 0 else none⟩ =
    poissonLoop 3 (1/8) (1/4) 8 clampNormaliser cexOracle fuel 1
      ⟨[(9/10, 1/10), (249/1000, 0)], [0, 1],
        fun c => if c = (4, 4) then some 1 else
          if c = (7, 4) then some 0 else none⟩ := by
  rw [poissonLoop, if_pos (by simp)]
  norm_num [cexOracle_pick]
  rw [cex_try0]
  simp only [cex_cell_P]

lemma cex_step1 (fuel : ℕ) :
    poissonLoop 3 (1/8) (1/4) 8 clampNormaliser cexOracle (fuel + 1) 1
      ⟨[(9/10, 1/10), (249/1000, 0)], [0, 1],
        fun c => if c = (4, 4) then some 1 else
          if c = (7, 4) then some 0 else none⟩ =
    poissonLoop 3 (1/8) (1/4) 8 clampNormaliser cexOracle fuel 2
      ⟨[(9/10, 1/10), (249/1000, 0), (501/1000, 1/10)], [0, 1, 2],
        fun c => if c = (6, 4) then some 2 else
          if c = (4, 4) then some 1 else
            if c = (7, 4) then some 0 else none⟩ := by
  rw [poissonLoop, if_pos (by simp)]
  norm_num [cexOracle_pick]
  rw [cex_try1]
  simp only [cex_cell_B]

lemma cex_step2 (fuel : ℕ) :
    poissonLoop 3 (1/8) (1/4) 8 clampNormaliser cexOracle (fuel + 1) 2
      ⟨[(9/10, 1/10), (249/1000, 0), (501/1000, 1/10)], [0, 1, 2],
        fun c => if c = (6, 4) then some 2 else
          if c = (4, 4) then some 1 else
            if c = (7, 4) then some 0 else none⟩ =
    ⟨[(9/10, 1/10), (249/1000, 0), (501/1000, 1/10)], [0, 1, 2],
      fun c => if c = (6, 4) then some 2 else
        if c = (4, 4) then some 1 else
          if c = (7, 4) then some 0 else none⟩ := by
  rw [poissonLoop, if_neg (by simp)]

lemma cex_run :
    poisson 3 (1/8) (1/4) clampNormaliser cexOracle =
      [(9/10, 1/10), (249/1000, 0), (501/1000, 1/10)] := by
  unfold poisson
  rw [show ((⌈1 / ((1:ℚ)/4)⌉).toNat * 2) = 8 by
    rw [show ⌈1 / ((1:ℚ)/4)⌉ = 4 by norm_num]
    decide]
  rw [show cexOracle.seed = ((9:ℚ)/10, (1:ℚ)/10) from rfl, cex_cell_seed]
  rw [show (2 * 3 + 1 : ℕ) = 6 + 1 from rfl, cex_step0 6,
    show (6 : ℕ) = 5 + 1 from rfl, cex_step1 5,
    show (5 : ℕ) = 4 + 1 from rfl, cex_step2 4]

/-- C1 (counterexample): the pairwise-separation half of the claim fails.
With `count = 3 > 0`, `radius = √2/4 > 0` (`r2 = radius² = 1/8`,
`cellSize = radius/√2 = 1/4`, so `2·cellSize² = r2`), the `Clamp`
normaliser, and the realizable randomness stream `cexOracle` (seed in
`[0,1)²`, candidate offsets of squared length within `[r2, 4·r2]`), the
sampler returns the three points `(0.9, 0.1)`, `(0.249, 0)`,
`(0.501, 0.1)` — and the last two are at squared distance
`0.073504 < 1/8`, i.e. closer than `radius`.  The second and third points
sit two grid cells apart (cells `(4,4)` and `(6,4)` with cell size
`radius/√2`), so the 3×3 neighbour scan never compares them. -/
theorem poisson_pairwise_separation_fails :
    (0 < 3) ∧ ((0 : ℚ) < 1/8) ∧ (2 * ((1:ℚ)/4) ^ 2 = 1/8) ∧
    (0 ≤ (9/10 : ℚ) ∧ (9/10 : ℚ) < 1 ∧ 0 ≤ (1/10 : ℚ) ∧ (1/10 : ℚ) < 1) ∧
    ((1/8 : ℚ) ≤ (-(651/1000) : ℚ) ^ 2 + (-(1/10) : ℚ) ^ 2 ∧
      (-(651/1000) : ℚ) ^ 2 + (-(1/10) : ℚ) ^ 2 ≤ 4 * (1/8)) ∧
    ((1/8 : ℚ) ≤ (-(399/1000) : ℚ) ^ 2 + (0 : ℚ) ^ 2 ∧
      (-(399/1000) : ℚ) ^ 2 + (0 : ℚ) ^ 2 ≤ 4 * (1/8)) ∧
    poisson 3 (1/8) (1/4) clampNormaliser cexOracle =
      [(9/10, 1/10), (249/1000, 0), (501/1000, 1/10)] ∧
    ¬ pairwiseSeparated (1/8) (poisson 3 (1/8) (1/4) clampNormaliser cexOracle) := by
  refine ⟨by norm_num, by norm_num, by norm_num, by norm_num, by norm_num,
    by norm_num, cex_run, ?_⟩
  rw [cex_run]
  intro h
  have hps := h 1 2 (by norm_num) (by norm_num) (by norm_num)
  norm_num [dist2, List.get] at hps
